import Mathlib

/-!
Shallow embedding of the lrcat-go library (package `lrcat`), a Go library
that builds Adobe Lightroom Classic catalog files, together with proofs
about its entity-consistency layer.

The SQLite tables touched by the modelled operations are embedded as Lean
lists of row structures; SQLite's implicit rowid assignment for an
`INTEGER PRIMARY KEY` column is modelled as `max existing id + 1`
(`nextId`).  Fallible operations return `Except`.  Go strings are Lean
`String`s; byte slices are `List Nat`.
-/

namespace LrcatGo

/-- SQLite assigns a fresh `INTEGER PRIMARY KEY` value as one more than the
largest rowid currently in the table (1 for an empty table). -/
def nextId (ids : List Nat) : Nat := ids.foldr max 0 + 1

/-! ### Go string primitives

The embedding works on the character lists underlying Lean `String`s, so
that every operation is structurally recursive and computes by kernel
reduction.  The modelled Go functions operate on ASCII catalog data. -/

/-- Go's `strings.ToLower` (ASCII range). -/
def goToLower (s : String) : String := String.mk (s.toList.map Char.toLower)

/-- Go's `strings.TrimSpace`: strip leading and trailing whitespace. -/
def goTrimSpace (s : String) : String :=
  String.mk (((s.toList.dropWhile Char.isWhitespace).reverse.dropWhile
    Char.isWhitespace).reverse)

/-- Whether `pat` starts the character list `cs` (Go `strings.HasPrefix`). -/
def goStartsWithChars : List Char → List Char → Bool
  | _, [] => true
  | [], _ :: _ => false
  | c :: cs, p :: ps => c == p && goStartsWithChars cs ps

/-- Go's `strings.HasPrefix s pat`. -/
def goStartsWith (s pat : String) : Bool := goStartsWithChars s.toList pat.toList

/-- Go's `strings.HasSuffix s "/"`. -/
def endsWithSlash (s : String) : Bool :=
  match s.toList.reverse with
  | [] => false
  | c :: _ => c == '/'

/-- Drop the first `n` characters of a string (used to model
`strings.TrimPrefix` once the pattern is known to be present). -/
def goDropChars (s : String) (n : Nat) : String := String.mk (s.toList.drop n)

/-! ## Blob codec: `CompressXMP` / `DecompressXMP` (folder.go)

`CompressXMP` writes a 4-byte big-endian header holding `uint32(len(xmp))`
followed by the zlib stream of the UTF-8 bytes of the text; it returns the
nil slice for the empty string.  `DecompressXMP` returns `""` for input
shorter than 4 bytes, otherwise strips the 4-byte header and inflates the
remainder.  The zlib compressor and decompressor come from Go's
`compress/zlib` package; they are external collaborators, so the embedding
is parameterised by the pair `(zc, zd)` together with the library's
round-trip contract `zd (zc s) = some s`.  Text and byte slices are byte
lists (`List Nat`); the nil slice is `[]`, indistinguishable from the
empty slice exactly as under Go's `len`. -/

/-- The 4-byte big-endian encoding of `uint32 n` written by `binary.Write`. -/
def be32 (n : Nat) : List Nat :=
  [n % 2 ^ 32 / 2 ^ 24, n % 2 ^ 24 / 2 ^ 16, n % 2 ^ 16 / 2 ^ 8, n % 2 ^ 8]

/-- `CompressXMP` from folder.go, parameterised by the zlib compressor `zc`. -/
def CompressXMP (zc : List Nat → List Nat) (xmp : List Nat) : List Nat :=
  if xmp = [] then []
  else be32 xmp.length ++ zc xmp

/-- `DecompressXMP` from folder.go, parameterised by the zlib decompressor
`zd` (`none` models a zlib error). -/
def DecompressXMP (zd : List Nat → Option (List Nat)) (data : List Nat) :
    Except String (List Nat) :=
  if data.length < 4 then .ok []
  else
    match zd (data.drop 4) with
    | some s => .ok s
    | none => .error "failed to decompress XMP"

/-! ## Keywords (keyword.go) -/

/-- A row of the `AgLibraryKeyword` table.  The columns `id_global`
(a fresh random UUID), `dateCreated`, `includeOnExport`, `includeParents`,
`includeSynonyms` are written as constants by `AddKeyword` and read by no
modelled operation, so they are omitted from the row. -/
structure KeywordRow where
  id : Nat
  name : String
  lcName : String
  parent : Option Nat
  genealogy : String
deriving Repr, DecidableEq

/-- Errors surfaced by the keyword operations. -/
inductive KwErr where
  | parentNotFound (id : Nat)
  | emptyKeywordPath
deriving Repr, DecidableEq

/-- `GetKeyword` (lookup by `id_local`; `QueryRow` returns the first
matching row). -/
def getKeyword (db : List KeywordRow) (id : Nat) : Option KeywordRow :=
  db.find? (fun r => r.id == id)

/-- `GetKeywordByName` from keyword.go: case-insensitive lookup on the
stored `lc_name` column. -/
def GetKeywordByName (db : List KeywordRow) (name : String) : Option KeywordRow :=
  db.find? (fun r => r.lcName == goToLower name)

/-- The parent-genealogy resolution at the top of `AddKeyword`
(keyword.go): the empty string when there is no parent, the parent's
stored genealogy otherwise, and a "parent keyword not found" error when
the supplied parent id does not resolve. -/
def resolveParentGenealogy (parentID : Option Nat) (db : List KeywordRow) :
    Except KwErr String :=
  match parentID with
  | none => .ok ""
  | some p =>
    match getKeyword db p with
    | some parent => .ok parent.genealogy
    | none => .error (KwErr.parentNotFound p)

/-- `AddKeyword` from keyword.go.  Two-phase: the row is first inserted
with the parent's genealogy only, then a second UPDATE stamps the final
genealogy `parentGenealogy ++ "/" ++ id` (or just `id` at the root) onto
the same row once the fresh id is known. -/
def AddKeyword (name : String) (parentID : Option Nat) (db : List KeywordRow) :
    Except KwErr (KeywordRow × List KeywordRow) :=
  match resolveParentGenealogy parentID db with
  | .error e => .error e
  | .ok genealogy =>
    let lcName := goToLower name
    let id := nextId (db.map (·.id))
    let db1 := db ++ [⟨id, name, lcName, parentID, genealogy⟩]
    let newGenealogy := (if genealogy = "" then "" else genealogy ++ "/") ++ toString id
    let db2 := db1.map fun r => if r.id == id then { r with genealogy := newGenealogy } else r
    .ok (⟨id, name, lcName, parentID, newGenealogy⟩, db2)

/-- `GetOrCreateKeyword` from keyword.go. -/
def GetOrCreateKeyword (name : String) (parentID : Option Nat)
    (db : List KeywordRow) : Except KwErr (KeywordRow × List KeywordRow) :=
  match GetKeywordByName db name with
  | some kw => .ok (kw, db)
  | none => AddKeyword name parentID db

/-- Go's `strings.Split(s, "/")` on the underlying character list: one
piece per run between separators, so `n` separators yield `n + 1` pieces
and the empty string yields the single piece `""`. -/
def goSplitSlash : List Char → List (List Char)
  | [] => [[]]
  | c :: rest =>
    let r := goSplitSlash rest
    if c = '/' then [] :: r
    else
      match r with
      | [] => [[c]]
      | h :: t => (c :: h) :: t

/-- `strings.Split(path, "/")` as used by `CreateHierarchicalKeywords`. -/
def goSplit (s : String) : List String :=
  (goSplitSlash s.toList).map fun cs => String.mk cs

/-- The per-segment loop of `CreateHierarchicalKeywords`: trim each
segment, skip blank segments, and thread the previously created keyword's
id as the parent of the next. -/
def createKwLoop : List String → Option Nat → Option KeywordRow → List KeywordRow →
    Except KwErr (Option KeywordRow × List KeywordRow)
  | [], _, lastKeyword, db => .ok (lastKeyword, db)
  | seg :: rest, parentID, lastKeyword, db =>
    let name := goTrimSpace seg
    if name = "" then createKwLoop rest parentID lastKeyword db
    else
      match GetOrCreateKeyword name parentID db with
      | .error e => .error e
      | .ok (kw, db1) => createKwLoop rest (some kw.id) (some kw) db1

/-- `CreateHierarchicalKeywords` from keyword.go: split the path on `"/"`,
report "empty keyword path" when the split yields no segments, otherwise
run the creation loop (which returns `none` when every segment is blank). -/
def CreateHierarchicalKeywords (path : String) (db : List KeywordRow) :
    Except KwErr (Option KeywordRow × List KeywordRow) :=
  let parts := goSplit path
  if parts.length = 0 then .error KwErr.emptyKeywordPath
  else createKwLoop parts none none db

/-! ## Collections (part_000)

The relevant tables are `AgLibraryCollection` and
`AgLibraryCollectionImage`, plus the `id_local` column of `Adobe_images`
(the membership queries join against it).  Per the schema in keyword.go,
`AgLibraryCollectionImage` carries no uniqueness constraint beyond its
auto-assigned `id_local INTEGER PRIMARY KEY`. -/

/-- A row of `AgLibraryCollection`. -/
structure CollectionRow where
  id : Nat
  creationId : String
  name : String
  parent : Option Nat
  genealogy : String
  imageCount : Option Nat
  systemOnly : String
deriving Repr, DecidableEq

/-- A row of `AgLibraryCollectionImage`.  `positionInCollection` is a
SQLite REAL; the values written by the library are produced from 1.0 by
repeated `+ 1.0`, embedded as exact rationals. -/
structure CollectionImageRow where
  id : Nat
  collection : Nat
  image : Nat
  pick : Nat
  position : ℚ
deriving Repr, DecidableEq

/-- The catalog state visible to the collection-membership operations:
the two collection tables and the set of `id_local` values present in
`Adobe_images`. -/
structure CollectionDB where
  collections : List CollectionRow
  collectionImages : List CollectionImageRow
  images : List Nat
deriving Repr, DecidableEq

/-- The `AgLibraryCollectionImage` rows of one collection
(`WHERE collection = ?`, in table order). -/
def rowsFor (c : Nat) (db : CollectionDB) : List CollectionImageRow :=
  db.collectionImages.filter fun r => r.collection == c

/-- `SELECT MAX(positionInCollection) ... WHERE collection = ?`: `none`
models the NULL aggregate over an empty row set. -/
def maxPosition (c : Nat) (db : CollectionDB) : Option ℚ :=
  (rowsFor c db).foldl
    (fun acc r =>
      match acc with
      | none => some r.position
      | some m => some (max m r.position))
    none

/-- `GetCollection`-style lookup by `id_local`. -/
def getCollection (id : Nat) (db : CollectionDB) : Option CollectionRow :=
  db.collections.find? fun r => r.id == id

/-- `updateCollectionImageCount` from part_000: set the collection's
`imageCount` to a fresh full count of its membership rows.  The UPDATE
touches only a row whose `id_local` matches, and is a no-op when the
collection does not exist. -/
def updateCollectionImageCount (collectionID : Nat) (db : CollectionDB) : CollectionDB :=
  { db with
    collections := db.collections.map fun cr =>
      if cr.id == collectionID then
        { cr with imageCount := some (rowsFor collectionID db).length }
      else cr }

/-- `AddImageToCollection` from part_000: read the current maximum
position (1.0 for an empty collection, max + 1.0 otherwise), then
`INSERT OR IGNORE` the membership row, then recompute the image count.
The insert never actually ignores anything: `AgLibraryCollectionImage`'s
only constraint is its auto-assigned `id_local INTEGER PRIMARY KEY`
(schemaSQL in keyword.go), so no conflict can arise and a row is appended
unconditionally, even for an (image, collection) pair already present. -/
def AddImageToCollection (imageID collectionID : Nat) (db : CollectionDB) : CollectionDB :=
  let position : ℚ :=
    match maxPosition collectionID db with
    | none => 1
    | some m => m + 1
  let row : CollectionImageRow :=
    ⟨nextId (db.collectionImages.map (·.id)), collectionID, imageID, 0, position⟩
  updateCollectionImageCount collectionID
    { db with collectionImages := db.collectionImages ++ [row] }

/-- `RemoveImageFromCollection` from part_000: delete every membership
row of the (image, collection) pair, then recompute the image count. -/
def RemoveImageFromCollection (imageID collectionID : Nat) (db : CollectionDB) : CollectionDB :=
  updateCollectionImageCount collectionID
    { db with
      collectionImages := db.collectionImages.filter fun r =>
        !(r.image == imageID && r.collection == collectionID) }

/-- The membership row freshly inserted by `AddImageToCollection` (its
id, position and fields spelled out; used to reason about the insert). -/
def newMembershipRow (imageID collectionID : Nat) (db : CollectionDB) : CollectionImageRow :=
  ⟨nextId (db.collectionImages.map (·.id)), collectionID, imageID, 0,
    match maxPosition collectionID db with
    | none => 1
    | some m => m + 1⟩

/-- The insert phase of `AddImageToCollection` in isolation. -/
def insertMembership (imageID collectionID : Nat) (db : CollectionDB) : CollectionDB :=
  { db with collectionImages :=
      db.collectionImages ++ [newMembershipRow imageID collectionID db] }

/-- The delete phase of `RemoveImageFromCollection` in isolation. -/
def removeMembership (imageID collectionID : Nat) (db : CollectionDB) : CollectionDB :=
  { db with
    collectionImages := db.collectionImages.filter fun r =>
      !(r.image == imageID && r.collection == collectionID) }

/-- The images recorded in one collection's membership rows, in table
order. -/
def imagesFor (c : Nat) (db : CollectionDB) : List Nat :=
  (rowsFor c db).map (·.image)

/-- Insertion step of the position sort used to model
`ORDER BY ci.positionInCollection`. -/
def insertByPos (r : CollectionImageRow) : List CollectionImageRow → List CollectionImageRow
  | [] => [r]
  | x :: xs => if r.position ≤ x.position then r :: x :: xs else x :: insertByPos r xs

/-- Sort membership rows by `positionInCollection`. -/
def sortByPosition : List CollectionImageRow → List CollectionImageRow
  | [] => []
  | x :: xs => insertByPos x (sortByPosition xs)

/-- `GetCollectionImages` from part_000: join the collection's membership
rows against `Adobe_images` and return the joined images ordered by
`positionInCollection`; the result is modelled by the matched images'
`id_local` values. -/
def GetCollectionImages (collectionID : Nat) (db : CollectionDB) : List Nat :=
  ((sortByPosition (rowsFor collectionID db)).filter fun r =>
      db.images.contains r.image).map (·.image)

/-- Run `AddImageToCollection` for each listed image against one
collection, in order. -/
def addAll (c : Nat) (imgs : List Nat) (db : CollectionDB) : CollectionDB :=
  imgs.foldl (fun db i => AddImageToCollection i c db) db

/-- Run `RemoveImageFromCollection` for each listed image against one
collection, in order. -/
def removeAll (c : Nat) (imgs : List Nat) (db : CollectionDB) : CollectionDB :=
  imgs.foldl (fun db i => RemoveImageFromCollection i c db) db

/-- The persisted `imageCount` column of a collection: `none` when the
collection row does not exist, otherwise `some` of the stored nullable
count. -/
def storedCount (c : Nat) (db : CollectionDB) : Option (Option Nat) :=
  (getCollection c db).map (·.imageCount)

/-- The catalog state of claim C1's failing input: a collection with
`id_local = 1` and an image with `id_local = 1`, not yet related. -/
def c1CatalogState : CollectionDB :=
  ⟨[⟨1, "com.adobe.ag.library.collection", "Test", none, "1", none, ""⟩], [], [1]⟩

/-- A small concrete catalog used by the collection witnesses: one empty
collection (id 1) and three images (ids 1, 2, 3). -/
def smallCollectionState : CollectionDB :=
  ⟨[⟨1, "com.adobe.ag.library.collection", "Witness", none, "1", none, ""⟩], [], [1, 2, 3]⟩

/-! ## Folders (folder.go)

Tables `AgLibraryRootFolder` (UNIQUE absolutePath) and `AgLibraryFolder`.
`id_global` UUIDs are omitted as for keywords. -/

/-- A row of `AgLibraryRootFolder`. -/
structure RootFolderRow where
  id : Nat
  absolutePath : String
  name : String
deriving Repr, DecidableEq

/-- A row of `AgLibraryFolder` (`parentId` is always inserted as NULL by
`AddFolder` and never set elsewhere, so it is omitted). -/
structure FolderRow where
  id : Nat
  rootFolder : Nat
  pathFromRoot : String
deriving Repr, DecidableEq

/-- The catalog state visible to the folder operations. -/
structure FolderDB where
  rootFolders : List RootFolderRow
  folders : List FolderRow
deriving Repr, DecidableEq

/-- Errors surfaced by the folder operations. -/
inductive FolderErr where
  | duplicateRootPath (path : String)
deriving Repr, DecidableEq

/-- `normalizePath` from folder.go replaces backslashes with forward
slashes on Windows and returns the path unchanged on every other
platform; the embedding fixes `runtime.GOOS ≠ "windows"`. -/
def normalizePath (path : String) : String := path

/-- Models `path/filepath.Base` for clean forward-slash paths: the final
path element after trailing separators are removed, `"/"` for the root
path and `"."` for the empty string (`Clean`'s dot-segment rewriting is
not modelled; the library only passes already-clean directory paths). -/
def goBase (p : String) : String :=
  let cs := p.toList.reverse.dropWhile fun c => c = '/'
  if cs = [] then (if p.toList.contains '/' then "/" else ".")
  else String.mk (cs.takeWhile fun c => decide (c ≠ '/')).reverse

/-- Models `path/filepath.Dir` for clean forward-slash paths: everything
before the final element, `"."` when the path has no separator. -/
def goDir (p : String) : String :=
  let cs := p.toList
  if cs.contains '/' then
    let kept := (cs.reverse.dropWhile fun c => decide (c ≠ '/')).reverse
    let trimmed := (kept.reverse.dropWhile fun c => c = '/').reverse
    if trimmed = [] then "/" else String.mk trimmed
  else "."

/-- `AddRootFolder` from folder.go: normalize, ensure a trailing slash,
derive the display name with `filepath.Base(strings.TrimSuffix(path,
"/"))`, and insert.  `absolutePath` is UNIQUE in the schema, so inserting
a duplicate path propagates the constraint violation as an error. -/
def AddRootFolder (absolutePath : String) (db : FolderDB) :
    Except FolderErr (RootFolderRow × FolderDB) :=
  let p0 := normalizePath absolutePath
  let p := if endsWithSlash p0 then p0 else p0 ++ "/"
  let name := goBase (if endsWithSlash p then String.mk p.toList.dropLast else p)
  if db.rootFolders.any (fun r => r.absolutePath == p) then
    .error (FolderErr.duplicateRootPath p)
  else
    let row : RootFolderRow := ⟨nextId (db.rootFolders.map (·.id)), p, name⟩
    .ok (row, { db with rootFolders := db.rootFolders ++ [row] })

/-- `AddFolder` from folder.go: normalize, ensure a trailing slash on a
non-empty relative path, and insert (no applicable uniqueness
constraint). -/
def AddFolder (rootFolderID : Nat) (pathFromRoot : String) (db : FolderDB) :
    FolderRow × FolderDB :=
  let p0 := normalizePath pathFromRoot
  let p := if p0 != "" && !endsWithSlash p0 then p0 ++ "/" else p0
  let row : FolderRow := ⟨nextId (db.folders.map (·.id)), rootFolderID, p⟩
  (row, { db with folders := db.folders ++ [row] })

/-- `GetOrCreateFolder` from folder.go: look up the (rootFolder,
pathFromRoot) pair after the same normalization, create on miss. -/
def GetOrCreateFolder (rootFolderID : Nat) (pathFromRoot : String) (db : FolderDB) :
    FolderRow × FolderDB :=
  let p0 := normalizePath pathFromRoot
  let p := if p0 != "" && !endsWithSlash p0 then p0 ++ "/" else p0
  match db.folders.find? (fun f => f.rootFolder == rootFolderID && f.pathFromRoot == p) with
  | some f => (f, db)
  | none => AddFolder rootFolderID p db

/-- Insertion step of the name sort used to model `ORDER BY name` in
`ListRootFolders`. -/
def insertRootByName (r : RootFolderRow) : List RootFolderRow → List RootFolderRow
  | [] => [r]
  | x :: xs =>
    if decide (r.name ≤ x.name) then r :: x :: xs else x :: insertRootByName r xs

/-- `ListRootFolders` from folder.go: every root folder, ordered by
name. -/
def ListRootFolders (db : FolderDB) : List RootFolderRow :=
  db.rootFolders.foldr insertRootByName []

/-- The scan inside `ensureFolderPath`: the first listed root folder
whose absolute path is a string-prefix of the directory wins, and the
relative path is the directory with that prefix stripped. -/
def findMatchingRoot : List RootFolderRow → String → Option (RootFolderRow × String)
  | [], _ => none
  | rf :: rest, dirPath =>
    if goStartsWith dirPath rf.absolutePath then
      some (rf, goDropChars dirPath rf.absolutePath.toList.length)
    else findMatchingRoot rest dirPath

/-- `ensureFolderPath` from folder.go: normalize the directory path and
ensure a trailing slash; reuse the first registered root folder that
prefix-matches it (get-or-creating the relative-path folder under it);
otherwise create a new root folder at the full directory with a folder at
the empty relative path. -/
def ensureFolderPath (dirPath : String) (db : FolderDB) :
    Except FolderErr (RootFolderRow × FolderRow × FolderDB) :=
  let d0 := normalizePath dirPath
  let d := if endsWithSlash d0 then d0 else d0 ++ "/"
  match findMatchingRoot (ListRootFolders db) d with
  | some (rf, rel) =>
    let (f, db1) := GetOrCreateFolder rf.id rel db
    .ok (rf, f, db1)
  | none =>
    match AddRootFolder d db with
    | .error e => .error e
    | .ok (rf, db1) =>
      let (f, db2) := GetOrCreateFolder rf.id "" db1
      .ok (rf, f, db2)

/-- The folder-resolution steps of `AddImage` (folder.go): normalize the
file path, split off its directory with `filepath.Dir`, and ensure the
folder path. -/
def addImageFolderResolution (filePath : String) (db : FolderDB) :
    Except FolderErr (RootFolderRow × FolderRow × FolderDB) :=
  ensureFolderPath (goDir (normalizePath filePath)) db

end LrcatGo

namespace LrcatGo

/-! ## Theorems about the blob codec -/

theorem be32_length (n : Nat) : (be32 n).length = 4 := rfl

/-- C2: for every text input, including the empty string, decoding the
encoding returns the input without error, given the zlib library contract
that inflation inverts deflation. -/
theorem c2_xmp_roundtrip (zc : List Nat → List Nat) (zd : List Nat → Option (List Nat))
    (hz : ∀ s : List Nat, zd (zc s) = some s) (xmp : List Nat) :
    DecompressXMP zd (CompressXMP zc xmp) = .ok xmp := by
  unfold CompressXMP DecompressXMP
  by_cases h : xmp = []
  · simp [h]
  · have hlen : (be32 xmp.length ++ zc xmp).length = 4 + (zc xmp).length := by
      simp [be32_length]
    have hdrop : (be32 xmp.length ++ zc xmp).drop 4 = zc xmp := by
      have h4 := List.drop_left (be32 xmp.length) (zc xmp)
      rw [be32_length] at h4
      exact h4
    simp [h, hlen, hdrop, hz]

/-- Witness for `c2_xmp_roundtrip` with the identity codec and a concrete
input. -/
theorem c2_xmp_roundtrip_witness :
    (∀ s : List Nat, some (id s) = some s) ∧
      DecompressXMP some (CompressXMP id [10, 20, 30]) = .ok [10, 20, 30] :=
  ⟨fun _ => rfl, c2_xmp_roundtrip id some (fun _ => rfl) [10, 20, 30]⟩

/-! ## Shared list lemmas -/

theorem mem_le_foldr_max {a : Nat} : ∀ {l : List Nat}, a ∈ l → a ≤ l.foldr max 0
  | _ :: t, h => by
    rcases List.mem_cons.mp h with h | h
    · simp [h, List.foldr_cons, le_max_left]
    · exact le_trans (mem_le_foldr_max h) (le_max_right _ _)

theorem find?_append_of_none {α : Type} {p : α → Bool} {l₁ l₂ : List α}
    (h : l₁.find? p = none) : (l₁ ++ l₂).find? p = l₂.find? p := by
  induction l₁ with
  | nil => rfl
  | cons a t ih =>
    rcases hpa : p a with _ | _
    · simp only [List.cons_append, List.find?_cons, hpa] at h ⊢
      exact ih h
    · simp only [List.find?_cons, hpa] at h
      exact absurd h (by simp)

theorem filter_eq_nil_of_find?_eq_none {α : Type} {p : α → Bool} {l : List α}
    (h : l.find? p = none) : l.filter p = [] := by
  rw [List.filter_eq_nil_iff]
  intro a ha
  have := List.find?_eq_none.mp h a ha
  simp [this]

theorem map_eq_self_of_mem {α : Type} {f : α → α} :
    ∀ {l : List α}, (∀ a ∈ l, f a = a) → l.map f = l
  | [], _ => rfl
  | a :: t, h => by
    rw [List.map_cons, h a (by simp),
      map_eq_self_of_mem fun b hb => h b (by simp [hb])]

/-! ## Theorems about keywords -/

/-- A fresh keyword id exceeds every id already in the table, so the
genealogy-stamping UPDATE touches only the new row. -/
theorem keyword_map_stamp_eq (db : List KeywordRow) (newG : String) :
    (db.map fun r =>
        if r.id == nextId (db.map (·.id)) then { r with genealogy := newG } else r) = db := by
  apply map_eq_self_of_mem
  intro r hr
  have hle : r.id ≤ (db.map (·.id)).foldr max 0 :=
    mem_le_foldr_max (List.mem_map_of_mem _ hr)
  have hne : r.id ≠ nextId (db.map (·.id)) := by
    unfold nextId
    omega
  simp [hne]

/-- Successful shape of `AddKeyword`: when the supplied parent resolves,
the call appends exactly one row, whose `lc_name` is the case-folded
name. -/
theorem AddKeyword_ok (name : String) (parentID : Option Nat) (db : List KeywordRow)
    (hparent : ∀ p, parentID = some p → (getKeyword db p).isSome = true) :
    ∃ k, AddKeyword name parentID db = .ok (k, db ++ [k]) ∧
      k.lcName = goToLower name ∧ k.name = name ∧ k.parent = parentID := by
  obtain ⟨g, hg⟩ : ∃ g, resolveParentGenealogy parentID db = .ok g := by
    rcases parentID with _ | p
    · exact ⟨"", rfl⟩
    · rcases hk : getKeyword db p with _ | parent
      · have := hparent p rfl
        rw [hk] at this
        simp at this
      · exact ⟨parent.genealogy, by simp [resolveParentGenealogy, hk]⟩
  refine ⟨⟨nextId (db.map (·.id)), name, goToLower name, parentID,
    (if g = "" then "" else g ++ "/") ++ toString (nextId (db.map (·.id)))⟩, ?_, rfl, rfl, rfl⟩
  unfold AddKeyword
  simp only [hg]
  rw [List.map_append, keyword_map_stamp_eq]
  simp

/-- C7: `GetOrCreateKeyword` is idempotent in the (case-folded) name.
Starting from a catalog with no keyword of the requested case-folded
name, a first call creates the keyword and a second call — with the same
name up to letter case — returns that same keyword, changes nothing, and
exactly one row with that case-folded name is persisted. -/
theorem c7_get_or_create_keyword_idempotent (db : List KeywordRow)
    (name name2 : String) (parentID : Option Nat)
    (hfresh : GetKeywordByName db name = none)
    (hcase : goToLower name2 = goToLower name)
    (hparent : ∀ p, parentID = some p → (getKeyword db p).isSome = true) :
    ∃ k,
      GetOrCreateKeyword name parentID db = .ok (k, db ++ [k]) ∧
      GetOrCreateKeyword name2 parentID (db ++ [k]) = .ok (k, db ++ [k]) ∧
      ((db ++ [k]).filter fun r => r.lcName == goToLower name).length = 1 := by
  obtain ⟨k, hAdd, hlc, _, _⟩ := AddKeyword_ok name parentID db hparent
  have hkfind : ∀ l₂ : List KeywordRow,
      (db ++ l₂).find? (fun r => r.lcName == goToLower name) =
        l₂.find? (fun r => r.lcName == goToLower name) :=
    fun l₂ => find?_append_of_none hfresh
  refine ⟨k, ?_, ?_, ?_⟩
  · unfold GetOrCreateKeyword
    rw [hfresh]
    exact hAdd
  · unfold GetOrCreateKeyword GetKeywordByName
    rw [hcase, hkfind [k], List.find?_cons, hlc]
    simp
  · rw [List.filter_append, filter_eq_nil_of_find?_eq_none hfresh]
    simp [hlc]

/-- Witness for `c7_get_or_create_keyword_idempotent` on an empty catalog
with names differing only in case. -/
theorem c7_get_or_create_keyword_idempotent_witness :
    ∃ k : KeywordRow,
      GetOrCreateKeyword "nature" none [] = .ok (k, [] ++ [k]) ∧
      GetOrCreateKeyword "Nature" none ([] ++ [k]) = .ok (k, [] ++ [k]) ∧
      ((([] ++ [k] : List KeywordRow)).filter fun r => r.lcName == goToLower "nature").length = 1 :=
  c7_get_or_create_keyword_idempotent [] "nature" "Nature" none rfl rfl
    fun _ h => Option.noConfusion h

/-- C9: whenever a keyword with the requested case-folded name already
exists, `GetOrCreateKeyword` returns the found keyword unchanged and
leaves the table untouched, no matter which parent id was supplied. -/
theorem c9_get_or_create_keyword_ignores_parent (db : List KeywordRow)
    (name : String) (parentID : Option Nat) (kw : KeywordRow)
    (hfound : GetKeywordByName db name = some kw) :
    GetOrCreateKeyword name parentID db = .ok (kw, db) := by
  unfold GetOrCreateKeyword
  rw [hfound]

/-- Witness for `c9_get_or_create_keyword_ignores_parent`: the stored
keyword has parent 5, the call requests parent 7, and the stored keyword
is returned unchanged with no new row. -/
theorem c9_get_or_create_keyword_ignores_parent_witness :
    GetOrCreateKeyword "DOGS" (some 7) [⟨1, "Dogs", "dogs", some 5, "5/1"⟩] =
      .ok (⟨1, "Dogs", "dogs", some 5, "5/1"⟩, [⟨1, "Dogs", "dogs", some 5, "5/1"⟩]) ∧
    (some 5 : Option Nat) ≠ some 7 :=
  ⟨c9_get_or_create_keyword_ignores_parent [⟨1, "Dogs", "dogs", some 5, "5/1"⟩]
      "DOGS" (some 7) ⟨1, "Dogs", "dogs", some 5, "5/1"⟩ rfl,
    by decide⟩

/-- C4: `CreateHierarchicalKeywords "Animals/Dogs/Labrador"` on an empty
catalog creates three keywords whose creation-order ids are 1, 2, 3; the
final keyword's genealogy is `"<id1>/<id2>/<id3>"`, and walking its
parent chain upward yields "Dogs" and then "Animals". -/
theorem c4_hierarchical_keyword_genealogy :
    ∃ (k1 k2 k3 : KeywordRow) (db : List KeywordRow),
      CreateHierarchicalKeywords "Animals/Dogs/Labrador" [] = .ok (some k3, db) ∧
      db = [k1, k2, k3] ∧
      k1.name = "Animals" ∧ k2.name = "Dogs" ∧ k3.name = "Labrador" ∧
      k3.genealogy = toString k1.id ++ "/" ++ toString k2.id ++ "/" ++ toString k3.id ∧
      k3.parent = some k2.id ∧ (getKeyword db k2.id).map (·.name) = some "Dogs" ∧
      k2.parent = some k1.id ∧ (getKeyword db k1.id).map (·.name) = some "Animals" ∧
      k1.parent = none :=
  ⟨⟨1, "Animals", "animals", none, "1"⟩, ⟨2, "Dogs", "dogs", some 1, "1/2"⟩,
    ⟨3, "Labrador", "labrador", some 2, "1/2/3"⟩, _,
    rfl, rfl, rfl, rfl, rfl, rfl, rfl, rfl, rfl, rfl, rfl⟩

theorem goSplitSlash_ne_nil : ∀ cs : List Char, goSplitSlash cs ≠ []
  | [] => by simp [goSplitSlash]
  | c :: rest => by
    unfold goSplitSlash
    by_cases hc : c = '/'
    · simp [hc]
    · simp only [if_neg hc]
      cases hr : goSplitSlash rest with
      | nil => exact absurd hr (goSplitSlash_ne_nil rest)
      | cons h t => simp

/-- `resolveParentGenealogy` can only fail with `parentNotFound`. -/
theorem resolveParentGenealogy_error {parentID : Option Nat} {db : List KeywordRow}
    {e : KwErr} (h : resolveParentGenealogy parentID db = .error e) :
    ∃ p, e = KwErr.parentNotFound p := by
  rcases parentID with _ | p
  · exact absurd h (by simp [resolveParentGenealogy])
  · rcases hk : getKeyword db p with _ | parent
    · refine ⟨p, ?_⟩
      rw [resolveParentGenealogy, hk] at h
      exact (Except.error.injEq _ _).mp h.symm
    · rw [resolveParentGenealogy, hk] at h
      exact absurd h (by simp)

/-- `AddKeyword` never reports the "empty keyword path" error. -/
theorem AddKeyword_ne_emptyPath (name : String) (parentID : Option Nat)
    (db : List KeywordRow) :
    AddKeyword name parentID db ≠ .error KwErr.emptyKeywordPath := by
  unfold AddKeyword
  rcases hres : resolveParentGenealogy parentID db with e | g
  · obtain ⟨p, hp⟩ := resolveParentGenealogy_error hres
    simp [hp]
  · simp

/-- `GetOrCreateKeyword` never reports the "empty keyword path" error. -/
theorem GetOrCreateKeyword_ne_emptyPath (name : String) (parentID : Option Nat)
    (db : List KeywordRow) :
    GetOrCreateKeyword name parentID db ≠ .error KwErr.emptyKeywordPath := by
  unfold GetOrCreateKeyword
  rcases GetKeywordByName db name with _ | kw
  · exact AddKeyword_ne_emptyPath name parentID db
  · simp

/-- The creation loop never reports the "empty keyword path" error. -/
theorem createKwLoop_ne_emptyPath :
    ∀ (segs : List String) (parentID : Option Nat) (lastKeyword : Option KeywordRow)
      (db : List KeywordRow),
      createKwLoop segs parentID lastKeyword db ≠ .error KwErr.emptyKeywordPath
  | [], _, _, _ => by simp [createKwLoop]
  | seg :: rest, parentID, lastKeyword, db => by
    unfold createKwLoop
    by_cases hseg : goTrimSpace seg = ""
    · simp only [if_pos hseg]
      exact createKwLoop_ne_emptyPath rest parentID lastKeyword db
    · simp only [if_neg hseg]
      rcases hg : GetOrCreateKeyword (goTrimSpace seg) parentID db with e | ⟨kw, db1⟩
      · have := GetOrCreateKeyword_ne_emptyPath (goTrimSpace seg) parentID db
        rw [hg] at this
        intro hcontra
        exact this (by rw [(Except.error.injEq _ _).mp hcontra])
      · exact createKwLoop_ne_emptyPath rest (some kw.id) (some kw) db1

/-- C10: a path whose slash-separated segments are all blank — such as
`"/"` — makes `CreateHierarchicalKeywords` return no keyword and no
error, and the declared "empty keyword path" error branch is unreachable
for every input, because splitting on `"/"` always yields at least one
segment. -/
theorem c10_blank_path_and_unreachable_error :
    CreateHierarchicalKeywords "/" [] = .ok (none, []) ∧
    ∀ (path : String) (db : List KeywordRow),
      CreateHierarchicalKeywords path db ≠ .error KwErr.emptyKeywordPath := by
  refine ⟨rfl, ?_⟩
  intro path db
  unfold CreateHierarchicalKeywords
  have hne : goSplit path ≠ [] := by
    unfold goSplit
    intro h
    exact goSplitSlash_ne_nil _ (List.map_eq_nil_iff.mp h)
  have hlen : ¬ (goSplit path).length = 0 :=
    fun h => hne (List.length_eq_zero.mp h)
  rw [if_neg hlen]
  exact createKwLoop_ne_emptyPath _ _ _ _

/-- Witness for `c10_blank_path_and_unreachable_error`: the unreachable
error branch, instantiated at a concrete path and catalog. -/
theorem c10_blank_path_and_unreachable_error_witness :
    CreateHierarchicalKeywords "People/Family" [] ≠ .error KwErr.emptyKeywordPath :=
  c10_blank_path_and_unreachable_error.2 "People/Family" []

/-! ## Theorems about folders -/

/-- C5: with no root folders registered, resolving the folder for an
asset at `/a/b/c/file.jpg` creates exactly one root folder with the
canonical path `"/a/b/c/"` and exactly one folder at the empty relative
path under it; resolving `/a/b/c/other.jpg` afterwards reuses both rows
and creates nothing. -/
theorem c5_folder_resolution_reuses_root :
    ∃ (rf : RootFolderRow) (f : FolderRow) (db1 : FolderDB),
      addImageFolderResolution "/a/b/c/file.jpg" ⟨[], []⟩ = .ok (rf, f, db1) ∧
      db1.rootFolders = [rf] ∧ rf.absolutePath = "/a/b/c/" ∧
      db1.folders = [f] ∧ f.pathFromRoot = "" ∧ f.rootFolder = rf.id ∧
      addImageFolderResolution "/a/b/c/other.jpg" db1 = .ok (rf, f, db1) :=
  ⟨⟨1, "/a/b/c/", "c"⟩, ⟨1, 1, ""⟩, ⟨[⟨1, "/a/b/c/", "c"⟩], [⟨1, 1, ""⟩]⟩,
    rfl, rfl, rfl, rfl, rfl, rfl, rfl⟩

/-! ## Theorems about collection membership -/

/-- C1 (evaluation at the failing input): calling `AddImageToCollection`
twice with the same image and collection leaves TWO membership rows for
the pair and a stored image count of 2 — the `INSERT OR IGNORE` has no
uniqueness constraint to conflict with, so the claimed idempotence does
not hold on the code. -/
theorem c1_duplicate_add_leaves_two_rows :
    (rowsFor 1 (AddImageToCollection 1 1 (AddImageToCollection 1 1 c1CatalogState))).map
        (fun r => (r.collection, r.image)) = [(1, 1), (1, 1)] ∧
    storedCount 1 (AddImageToCollection 1 1 (AddImageToCollection 1 1 c1CatalogState)) =
      some (some 2) :=
  ⟨rfl, rfl⟩

theorem AddImageToCollection_def (i c : Nat) (db : CollectionDB) :
    AddImageToCollection i c db = updateCollectionImageCount c (insertMembership i c db) := rfl

theorem RemoveImageFromCollection_def (i c : Nat) (db : CollectionDB) :
    RemoveImageFromCollection i c db =
      updateCollectionImageCount c (removeMembership i c db) := rfl

theorem rowsFor_update (c cID : Nat) (db : CollectionDB) :
    rowsFor c (updateCollectionImageCount cID db) = rowsFor c db := rfl

theorem find?_id_map (f : CollectionRow → CollectionRow)
    (hf : ∀ r, (f r).id = r.id) (l : List CollectionRow) (c : Nat) :
    (l.map f).find? (fun r => r.id == c) = (l.find? fun r => r.id == c).map f := by
  induction l with
  | nil => rfl
  | cons a t ih =>
    rcases h : (a.id == c) with _ | _
    · simp only [List.map_cons, List.find?_cons, hf a, h]
      exact ih
    · simp only [List.map_cons, List.find?_cons, hf a, h]
      rfl

theorem getCollection_update_any (c cID : Nat) (db : CollectionDB) :
    getCollection c (updateCollectionImageCount cID db) =
      (getCollection c db).map fun cr =>
        if cr.id == cID then { cr with imageCount := some (rowsFor cID db).length }
        else cr := by
  unfold getCollection updateCollectionImageCount
  exact find?_id_map _ (fun r => by by_cases h : (r.id == cID) = true <;> simp [h]) _ _

theorem storedCount_update (c : Nat) (db : CollectionDB)
    (hex : (getCollection c db).isSome = true) :
    storedCount c (updateCollectionImageCount c db) =
      some (some (rowsFor c db).length) := by
  obtain ⟨r, hr⟩ := Option.isSome_iff_exists.mp hex
  have hp := List.find?_some
    (show db.collections.find? (fun cr => cr.id == c) = some r from hr)
  have hpc : r.id = c := by simpa using hp
  unfold storedCount
  rw [getCollection_update_any, hr]
  simp [hpc]

theorem getCollection_isSome_update (c cID : Nat) (db : CollectionDB) :
    (getCollection c (updateCollectionImageCount cID db)).isSome =
      (getCollection c db).isSome := by
  rw [getCollection_update_any]
  cases getCollection c db <;> simp

theorem getCollection_isSome_add (i c : Nat) (db : CollectionDB) :
    (getCollection c (AddImageToCollection i c db)).isSome =
      (getCollection c db).isSome := by
  rw [AddImageToCollection_def, getCollection_isSome_update]
  rfl

theorem getCollection_isSome_remove (i c : Nat) (db : CollectionDB) :
    (getCollection c (RemoveImageFromCollection i c db)).isSome =
      (getCollection c db).isSome := by
  rw [RemoveImageFromCollection_def, getCollection_isSome_update]
  rfl

theorem rowsFor_insertMembership (i c : Nat) (db : CollectionDB) :
    rowsFor c (insertMembership i c db) = rowsFor c db ++ [newMembershipRow i c db] := by
  unfold insertMembership rowsFor
  rw [List.filter_append]
  simp [newMembershipRow]

theorem rowsFor_remove (i c : Nat) (db : CollectionDB) :
    rowsFor c (RemoveImageFromCollection i c db) =
      (rowsFor c db).filter fun r => !(r.image == i) := by
  rw [RemoveImageFromCollection_def, rowsFor_update]
  unfold removeMembership rowsFor
  rw [List.filter_filter, List.filter_filter]
  apply List.filter_congr
  intro r _
  cases h1 : (r.image == i) <;> cases h2 : (r.collection == c) <;> simp [h1, h2]

theorem storedCount_add (i c : Nat) (db : CollectionDB)
    (hex : (getCollection c db).isSome = true) :
    storedCount c (AddImageToCollection i c db) =
      some (some ((rowsFor c db).length + 1)) := by
  rw [AddImageToCollection_def]
  have hex' : (getCollection c (insertMembership i c db)).isSome = true := hex
  rw [storedCount_update _ _ hex', rowsFor_insertMembership]
  simp

theorem storedCount_remove (i c : Nat) (db : CollectionDB)
    (hex : (getCollection c db).isSome = true) :
    storedCount c (RemoveImageFromCollection i c db) =
      some (some (rowsFor c (RemoveImageFromCollection i c db)).length) := by
  rw [RemoveImageFromCollection_def]
  have hex' : (getCollection c (removeMembership i c db)).isSome = true := hex
  rw [storedCount_update _ _ hex']
  rfl

theorem addAll_cons (c x : Nat) (l : List Nat) (db : CollectionDB) :
    addAll c (x :: l) db = addAll c l (AddImageToCollection x c db) := rfl

theorem addAll_append_one (c x : Nat) (l : List Nat) (db : CollectionDB) :
    addAll c (l ++ [x]) db = AddImageToCollection x c (addAll c l db) := by
  unfold addAll
  rw [List.foldl_append]
  rfl

theorem removeAll_cons (c x : Nat) (l : List Nat) (db : CollectionDB) :
    removeAll c (x :: l) db = removeAll c l (RemoveImageFromCollection x c db) := rfl

theorem removeAll_append_one (c x : Nat) (l : List Nat) (db : CollectionDB) :
    removeAll c (l ++ [x]) db = RemoveImageFromCollection x c (removeAll c l db) := by
  unfold removeAll
  rw [List.foldl_append]
  rfl

theorem getCollection_isSome_addAll (c : Nat) (l : List Nat) (db : CollectionDB) :
    (getCollection c (addAll c l db)).isSome = (getCollection c db).isSome := by
  induction l generalizing db with
  | nil => rfl
  | cons x t ih => rw [addAll_cons, ih, getCollection_isSome_add]

theorem getCollection_isSome_removeAll (c : Nat) (l : List Nat) (db : CollectionDB) :
    (getCollection c (removeAll c l db)).isSome = (getCollection c db).isSome := by
  induction l generalizing db with
  | nil => rfl
  | cons x t ih => rw [removeAll_cons, ih, getCollection_isSome_remove]

theorem imagesFor_add (i c : Nat) (db : CollectionDB) :
    imagesFor c (AddImageToCollection i c db) = imagesFor c db ++ [i] := by
  unfold imagesFor
  rw [AddImageToCollection_def, rowsFor_update, rowsFor_insertMembership, List.map_append]
  rfl

theorem imagesFor_addAll (c : Nat) (l : List Nat) (db : CollectionDB) :
    imagesFor c (addAll c l db) = imagesFor c db ++ l := by
  induction l generalizing db with
  | nil => simp [addAll]
  | cons x t ih =>
    rw [addAll_cons, ih, imagesFor_add]
    simp

theorem map_image_filter (i : Nat) (l : List CollectionImageRow) :
    (l.filter fun r => !(r.image == i)).map (·.image) =
      (l.map (·.image)).filter fun x => !(x == i) := by
  induction l with
  | nil => rfl
  | cons a t ih =>
    by_cases h : (a.image == i) = true
    · simp [List.filter_cons, h, ih]
    · simp at h
      simp [List.filter_cons, h, ih]

theorem imagesFor_remove (i c : Nat) (db : CollectionDB) :
    imagesFor c (RemoveImageFromCollection i c db) =
      (imagesFor c db).filter fun x => !(x == i) := by
  unfold imagesFor
  rw [rowsFor_remove, map_image_filter]

theorem imagesFor_removeAll (c : Nat) (zs : List Nat) (db : CollectionDB) :
    imagesFor c (removeAll c zs db) =
      (imagesFor c db).filter fun x => !(zs.contains x) := by
  induction zs generalizing db with
  | nil => simp [removeAll]
  | cons z t ih =>
    rw [removeAll_cons, ih, imagesFor_remove, List.filter_filter]
    apply List.filter_congr
    intro x _
    have hx : (z :: t).contains x = ((x == z) || t.contains x) := rfl
    rw [hx, Bool.not_or]
    cases (x == z) <;> cases t.contains x <;> rfl

theorem length_filter_ne_of_nodup :
    ∀ (L : List Nat) (y : Nat), L.Nodup → y ∈ L →
      (L.filter fun x => !(x == y)).length = L.length - 1
  | a :: t, y, hnd, hy => by
    rcases List.mem_cons.mp hy with h | h
    · subst h
      have hnot : y ∉ t := (List.nodup_cons.mp hnd).1
      rw [List.filter_cons]
      simp only [beq_self_eq_true, Bool.not_true, if_neg]
      rw [List.filter_eq_self.mpr ?_]
      · simp
      · intro x hx
        have : x ≠ y := by
          intro hcontra
          exact hnot (hcontra ▸ hx)
        simp [this]
    · have hay : a ≠ y := by
        intro hcontra
        exact (List.nodup_cons.mp hnd).1 (hcontra ▸ h)
      rw [List.filter_cons, if_pos (by simp [hay])]
      simp only [List.length_cons,
        length_filter_ne_of_nodup t y (List.nodup_cons.mp hnd).2 h]
      have : 0 < t.length := List.length_pos.mpr (List.ne_nil_of_mem h)
      omega

theorem filter_not_contains_length :
    ∀ (zs xs : List Nat), xs.Nodup → zs.Nodup → (∀ z ∈ zs, z ∈ xs) →
      (xs.filter fun x => !(zs.contains x)).length = xs.length - zs.length
  | [], xs, _, _, _ => by simp
  | z :: t, xs, hxs, hzs, hsub => by
    have step : (xs.filter fun x => !((z :: t).contains x)) =
        (xs.filter fun x => !(x == z)).filter fun x => !(t.contains x) := by
      rw [List.filter_filter]
      apply List.filter_congr
      intro x _
      have hx : (z :: t).contains x = ((x == z) || t.contains x) := rfl
      rw [hx, Bool.not_or]
      cases (x == z) <;> cases t.contains x <;> rfl
    have hz : z ∈ xs := hsub z (by simp)
    have h1 : (xs.filter fun x => !(x == z)).Nodup := hxs.filter _
    have hsub2 : ∀ w ∈ t, w ∈ xs.filter fun x => !(x == z) := by
      intro w hw
      rw [List.mem_filter]
      refine ⟨hsub w (by simp [hw]), ?_⟩
      have hwz : w ≠ z := by
        intro hcontra
        exact (List.nodup_cons.mp hzs).1 (hcontra ▸ hw)
      simp [hwz]
    rw [step,
      filter_not_contains_length t _ h1 (List.nodup_cons.mp hzs).2 hsub2,
      length_filter_ne_of_nodup xs z hxs hz]
    have : 0 < xs.length := List.length_pos.mpr (List.ne_nil_of_mem hz)
    simp only [List.length_cons]
    omega

theorem storedCount_addAll_ne_nil (c : Nat) (l : List Nat) (db : CollectionDB)
    (hl : l ≠ []) (hex : (getCollection c db).isSome = true) :
    storedCount c (addAll c l db) =
      some (some (imagesFor c (addAll c l db)).length) := by
  rcases List.eq_nil_or_concat l with h | ⟨l2, x, h⟩
  · exact absurd h hl
  · subst h
    rw [List.concat_eq_append, addAll_append_one]
    have hex2 : (getCollection c (addAll c l2 db)).isSome = true := by
      rw [getCollection_isSome_addAll]
      exact hex
    rw [storedCount_add x c _ hex2, imagesFor_add]
    unfold imagesFor
    simp

theorem storedCount_removeAll_ne_nil (c : Nat) (l : List Nat) (db : CollectionDB)
    (hl : l ≠ []) (hex : (getCollection c db).isSome = true) :
    storedCount c (removeAll c l db) =
      some (some (imagesFor c (removeAll c l db)).length) := by
  rcases List.eq_nil_or_concat l with h | ⟨l2, x, h⟩
  · exact absurd h hl
  · subst h
    rw [List.concat_eq_append, removeAll_append_one]
    have hex2 : (getCollection c (removeAll c l2 db)).isSome = true := by
      rw [getCollection_isSome_removeAll]
      exact hex
    rw [storedCount_remove x c _ hex2]
    unfold imagesFor
    rw [List.length_map]

/-- C3: starting from a collection with no membership rows, adding N
distinct images and then removing M of them (M ≤ N, all previously
added) keeps the persisted `imageCount` equal to the number of membership
rows immediately after every mutating call: it is `k` after the k-th
add, `N − j` after the j-th removal, and the final row count is
`N − M`. -/
theorem c3_aggregate_count_tracks_rows (db0 : CollectionDB) (c : Nat)
    (xs ys : List Nat)
    (hex : (getCollection c db0).isSome = true)
    (h0 : rowsFor c db0 = [])
    (hxs : xs.Nodup) (hys : ys.Nodup) (hsub : ∀ y ∈ ys, y ∈ xs) :
    (∀ k < xs.length,
      storedCount c (addAll c (xs.take (k + 1)) db0) = some (some (k + 1))) ∧
    (∀ j < ys.length,
      storedCount c (removeAll c (ys.take (j + 1)) (addAll c xs db0)) =
        some (some (xs.length - (j + 1)))) ∧
    (rowsFor c (removeAll c ys (addAll c xs db0))).length = xs.length - ys.length := by
  have him0 : imagesFor c db0 = [] := by
    unfold imagesFor
    rw [h0]
    rfl
  have hchar : ∀ zs : List Nat, imagesFor c (removeAll c zs (addAll c xs db0)) =
      xs.filter fun x => !(zs.contains x) := by
    intro zs
    rw [imagesFor_removeAll, imagesFor_addAll, him0, List.nil_append]
  refine ⟨?_, ?_, ?_⟩
  · intro k hk
    have htk : xs.take (k + 1) ≠ [] := by
      intro h
      have hcontra := congrArg List.length h
      rw [List.length_take, List.length_nil] at hcontra
      omega
    rw [storedCount_addAll_ne_nil c _ db0 htk hex, imagesFor_addAll, him0,
      List.nil_append, List.length_take]
    congr 2
    omega
  · intro j hj
    have hexN : (getCollection c (addAll c xs db0)).isSome = true := by
      rw [getCollection_isSome_addAll]
      exact hex
    have htj : ys.take (j + 1) ≠ [] := by
      intro h
      have hcontra := congrArg List.length h
      rw [List.length_take, List.length_nil] at hcontra
      omega
    have hndj : (ys.take (j + 1)).Nodup := hys.sublist (List.take_sublist _ _)
    have hsubj : ∀ z ∈ ys.take (j + 1), z ∈ xs :=
      fun z hz => hsub z (List.take_subset _ _ hz)
    rw [storedCount_removeAll_ne_nil c _ _ htj hexN, hchar,
      filter_not_contains_length _ _ hxs hndj hsubj, List.length_take]
    congr 2
    omega
  · have hlen : (rowsFor c (removeAll c ys (addAll c xs db0))).length =
        (imagesFor c (removeAll c ys (addAll c xs db0))).length := by
      unfold imagesFor
      rw [List.length_map]
    rw [hlen, hchar, filter_not_contains_length _ _ hxs hys hsub]

/-- Witness for `c3_aggregate_count_tracks_rows`: images 1 and 2 are
added to collection 1 of `smallCollectionState` and image 1 is then
removed; the stored count after the removal is 1 and one membership row
remains. -/
theorem c3_aggregate_count_tracks_rows_witness :
    storedCount 1 (removeAll 1 ([1].take (0 + 1)) (addAll 1 [1, 2] smallCollectionState)) =
      some (some ([1, 2].length - (0 + 1))) ∧
    (rowsFor 1 (removeAll 1 [1] (addAll 1 [1, 2] smallCollectionState))).length =
      [1, 2].length - [1].length := by
  have h := c3_aggregate_count_tracks_rows smallCollectionState 1 [1, 2] [1]
    rfl rfl (by decide) (by decide) (by decide)
  exact ⟨h.2.1 0 (by decide), h.2.2⟩

/-- C6: on a collection with no membership rows, adding the distinct
images a, b, c (all present in `Adobe_images`) in that order assigns
positions 1, 2, 3 — each computed as current maximum + 1, with 1 for the
first member — and `GetCollectionImages` returns them in exactly that
order. -/
theorem c6_collection_members_ordered (db : CollectionDB) (a b c coll : Nat)
    (h0 : rowsFor coll db = [])
    (_hab : a ≠ b) (_hac : a ≠ c) (_hbc : b ≠ c)
    (ha : db.images.contains a = true) (hb : db.images.contains b = true)
    (hc : db.images.contains c = true) :
    GetCollectionImages coll
        (AddImageToCollection c coll
          (AddImageToCollection b coll (AddImageToCollection a coll db))) = [a, b, c] ∧
    (rowsFor coll
        (AddImageToCollection c coll
          (AddImageToCollection b coll (AddImageToCollection a coll db)))).map
      (·.position) = [1, 2, 3] := by
  have hm0 : maxPosition coll db = none := by
    unfold maxPosition
    rw [h0]
    rfl
  have e1 : rowsFor coll (AddImageToCollection a coll db) =
      [newMembershipRow a coll db] := by
    rw [AddImageToCollection_def, rowsFor_update, rowsFor_insertMembership, h0,
      List.nil_append]
  have hp1 : (newMembershipRow a coll db).position = 1 := by
    simp only [newMembershipRow, hm0]
  have hm1 : maxPosition coll (AddImageToCollection a coll db) = some 1 := by
    unfold maxPosition
    rw [e1]
    simp only [List.foldl_cons, List.foldl_nil, hp1]
  have e2 : rowsFor coll
      (AddImageToCollection b coll (AddImageToCollection a coll db)) =
      [newMembershipRow a coll db,
        newMembershipRow b coll (AddImageToCollection a coll db)] := by
    rw [AddImageToCollection_def b, rowsFor_update, rowsFor_insertMembership, e1]
    rfl
  have hp2 : (newMembershipRow b coll (AddImageToCollection a coll db)).position = 2 := by
    simp only [newMembershipRow, hm1]
    norm_num
  have hm2 : maxPosition coll
      (AddImageToCollection b coll (AddImageToCollection a coll db)) = some 2 := by
    unfold maxPosition
    rw [e2]
    simp only [List.foldl_cons, List.foldl_nil, hp1, hp2]
    norm_num
  have hp3 : (newMembershipRow c coll
      (AddImageToCollection b coll (AddImageToCollection a coll db))).position = 3 := by
    simp only [newMembershipRow, hm2]
    norm_num
  have e3 : rowsFor coll
      (AddImageToCollection c coll
        (AddImageToCollection b coll (AddImageToCollection a coll db))) =
      [newMembershipRow a coll db,
        newMembershipRow b coll (AddImageToCollection a coll db),
        newMembershipRow c coll
          (AddImageToCollection b coll (AddImageToCollection a coll db))] := by
    rw [AddImageToCollection_def c, rowsFor_update, rowsFor_insertMembership, e2]
    rfl
  have c23 : ((newMembershipRow b coll (AddImageToCollection a coll db)).position ≤
      (newMembershipRow c coll
        (AddImageToCollection b coll (AddImageToCollection a coll db))).position) = True := by
    rw [hp2, hp3]
    norm_num
  have c12 : ((newMembershipRow a coll db).position ≤
      (newMembershipRow b coll (AddImageToCollection a coll db)).position) = True := by
    rw [hp1, hp2]
    norm_num
  have himg : (AddImageToCollection c coll
      (AddImageToCollection b coll (AddImageToCollection a coll db))).images =
      db.images := rfl
  have i1 : (newMembershipRow a coll db).image = a := rfl
  have i2 : (newMembershipRow b coll (AddImageToCollection a coll db)).image = b := rfl
  have i3 : (newMembershipRow c coll
      (AddImageToCollection b coll (AddImageToCollection a coll db))).image = c := rfl
  constructor
  · unfold GetCollectionImages
    rw [e3, himg]
    simp only [sortByPosition, insertByPos, c23, c12, if_true,
      List.filter_cons, List.filter_nil, i1, i2, i3, ha, hb, hc,
      List.map_cons, List.map_nil]
  · rw [e3]
    simp only [List.map_cons, List.map_nil, hp1, hp2, hp3]

/-- Witness for `c6_collection_members_ordered` on `smallCollectionState`
with images 1, 2, 3 added to collection 1. -/
theorem c6_collection_members_ordered_witness :
    GetCollectionImages 1
        (AddImageToCollection 3 1
          (AddImageToCollection 2 1 (AddImageToCollection 1 1 smallCollectionState))) =
      [1, 2, 3] ∧
    (rowsFor 1
        (AddImageToCollection 3 1
          (AddImageToCollection 2 1
            (AddImageToCollection 1 1 smallCollectionState)))).map
      (·.position) = [1, 2, 3] :=
  c6_collection_members_ordered smallCollectionState 1 2 3 1 rfl
    (by decide) (by decide) (by decide) rfl rfl rfl

end LrcatGo
